import Mathlib

/-!
Verification of the PerceptronJS repository against its specification.

Shallow embedding notes:
- JavaScript numbers are modelled as rationals (`ℚ`); the algorithms are
  plain `+ - *` and comparisons, so `ℚ` captures the intended arithmetic and
  every definition stays executable.
- The three source components are embedded with their source names:
  `BinaryPerceptron` (src/js/binaryperceptron.js), `Perceptron`
  (src/unnamed/part_000, the canonical variant — its constructor, `getScore_`,
  `setInput_`, `updateWeights_`, `train` and `classify` are character-for-
  character identical to the `BinaryPerceptron` ones, so those are shared and
  only its distinct `trainSet` is embedded separately), and `MultiPerceptron`
  (src/unnamed/part_001).
- The JS methods mutate `this`; here each operation takes the perceptron state
  and returns the new state.  Fallible methods return `Except JsError ...`;
  a thrown JS error is modelled as `.error e`, which carries no state: every
  throw in the source happens before the method mutates anything it reports
  about (the guard clauses run first), so the caller's state is the pre-call
  state.
- `trainSet`'s while loop (`while (numberFailed != 0 && iteration < maxIterations)`)
  is translated with a fuel argument: at entry `fuel = maxIterations.toNat`
  and the loop maintains `fuel = maxIterations.toNat - iteration`, so
  `fuel = 0` exactly when `iteration < maxIterations` fails.  `iteration` is
  still carried explicitly because the source uses it for the callback
  argument and for the final `return iteration != maxIterations`.
- The per-pass callback of `BinaryPerceptron.trainSet` and
  `MultiPerceptron.trainSet` is modelled by a trace: the returned list holds
  one entry `(numberFailed, inputSet.length, iteration)` per invocation, in
  order.  The JS parameter may be omitted by the caller; `hasCallback = false`
  models that, and invoking a missing callback is the JS TypeError
  (`callback is not a function`), modelled as `JsError.CallbackNotAFunction`.
-/

/-- Feature / weight vectors: ordered sequences of JS numbers. -/
abbrev Vec := List ℚ

/-- The errors the source can throw.  `DimensionMismatch` models the thrown
strings Illegal input dimension and Cannot change weight dimension,
`SetSizeMismatch` models Input and expectation mismatch, and
`CallbackNotAFunction` models the TypeError raised when `trainSet` is called
without a callback and reaches `callback(...)`. -/
inductive JsError where
  | DimensionMismatch
  | SetSizeMismatch
  | CallbackNotAFunction
deriving DecidableEq

instance {ε α : Type} [DecidableEq ε] [DecidableEq α] : DecidableEq (Except ε α) :=
  fun a b =>
    match a, b with
    | .error e, .error e' => match decEq e e' with
      | isTrue h => isTrue (by rw [h])
      | isFalse h => isFalse (by intro hc; cases hc; exact h rfl)
    | .ok x, .ok y => match decEq x y with
      | isTrue h => isTrue (by rw [h])
      | isFalse h => isFalse (by intro hc; cases hc; exact h rfl)
    | .error _, .ok _ => isFalse (by intro hc; cases hc)
    | .ok _, .error _ => isFalse (by intro hc; cases hc)

/-- Dot product of two equal-length vectors, as computed by the `getScore_`
loops (`score += weights[i] * inputs[i]`). -/
def dot (ws ins : Vec) : ℚ := (List.zipWith (· * ·) ws ins).sum

/-- State of a binary perceptron (both src/js/binaryperceptron.js and the
structurally identical `Perceptron` of src/unnamed/part_000): the learning
rate and threshold fixed at construction, the resident input buffer
(`inputs_`, index 0 pinned to the bias constant 1.0) and the weight vector
(`inputWeights_`). -/
structure BinaryPerceptron where
  learningRate : ℚ
  threshold : ℚ
  inputs : Vec
  inputWeights : Vec
deriving DecidableEq

/-- The canonical variant of src/unnamed/part_000 has exactly the same fields
and constructor. -/
abbrev Perceptron := BinaryPerceptron

/-- Constructor `BinaryPerceptron(inputDimension, learningRate, threshold)`:
pushes `inputDimension + 1` zeros onto both arrays, then sets the bias slot
`inputs_[0] = 1.0`. -/
def mkBinaryPerceptron (inputDimension : ℕ) (learningRate threshold : ℚ) :
    BinaryPerceptron :=
  { learningRate := learningRate
    threshold := threshold
    inputs := 1 :: List.replicate inputDimension 0
    inputWeights := List.replicate (inputDimension + 1) 0 }

/-- `BinaryPerceptron.prototype.getScore_`: dot product of the weight vector
with the current input buffer. -/
def BinaryPerceptron.getScore_ (p : BinaryPerceptron) : ℚ :=
  dot p.inputWeights p.inputs

/-- `BinaryPerceptron.prototype.setInput_`: copies the caller's vector into
buffer slots `1..`, keeping slot 0 (the bias) untouched.  Every call site
first checks `input.length == inputs_.length - 1`, under which this equals
the JS in-place loop. -/
def BinaryPerceptron.setInput_ (p : BinaryPerceptron) (input : Vec) :
    BinaryPerceptron :=
  { p with inputs := p.inputs.take 1 ++ input }

/-- `BinaryPerceptron.prototype.getWeights`: returns a copy (`slice(0)`). -/
def BinaryPerceptron.getWeights (p : BinaryPerceptron) : Vec :=
  p.inputWeights

/-- `BinaryPerceptron.prototype.setWeights`: rejects a vector of different
length, otherwise replaces the weights. -/
def BinaryPerceptron.setWeights (p : BinaryPerceptron) (weights : Vec) :
    Except JsError BinaryPerceptron :=
  if weights.length ≠ p.inputWeights.length then .error .DimensionMismatch
  else .ok { p with inputWeights := weights }

/-- `BinaryPerceptron.prototype.updateWeights_`:
`weights[i] += learningRate * error * inputs_[i]` for every weight index. -/
def BinaryPerceptron.updateWeights_ (p : BinaryPerceptron) (err : ℚ) :
    BinaryPerceptron :=
  { p with inputWeights :=
      List.zipWith (fun w x => w + p.learningRate * err * x) p.inputWeights p.inputs }

/-- `BinaryPerceptron.prototype.train` (identical in part_000): dimension
check, set buffer, score, derive expected/predicted values in {0, 1}; on
match return true unchanged, otherwise update weights with the signed error
and return false. -/
def BinaryPerceptron.train (p : BinaryPerceptron) (input : Vec) (expected : Bool) :
    Except JsError (Bool × BinaryPerceptron) :=
  if (input.length : ℤ) ≠ (p.inputs.length : ℤ) - 1 then .error .DimensionMismatch
  else
    let p1 := p.setInput_ input
    let score := p1.getScore_
    let expectedValue : ℚ := if expected then 1 else 0
    let result : ℚ := if score > p1.threshold then 1 else 0
    if expectedValue = result then .ok (true, p1)
    else .ok (false, p1.updateWeights_ (expectedValue - result))

/-- `BinaryPerceptron.prototype.classify` (identical in part_000): dimension
check, set buffer, return `score > threshold` (and the state with the
mutated buffer). -/
def BinaryPerceptron.classify (p : BinaryPerceptron) (input : Vec) :
    Except JsError (Bool × BinaryPerceptron) :=
  if (input.length : ℤ) ≠ (p.inputs.length : ℤ) - 1 then .error .DimensionMismatch
  else
    let p1 := p.setInput_ input
    .ok (decide (p1.getScore_ > p1.threshold), p1)

/-- One training step of `trainSet`, uncurried over a (input, expected)
pair. -/
def BinaryPerceptron.trainStep (p : BinaryPerceptron) (q : Vec × Bool) :
    Except JsError (Bool × BinaryPerceptron) :=
  p.train q.1 q.2

/-- State of `MultiPerceptron` (src/unnamed/part_001): learning rate, the
shared input buffer, and one weight vector per class. -/
structure MultiPerceptron where
  learningRate : ℚ
  inputs : Vec
  inputWeights : List Vec
deriving DecidableEq

/-- Constructor `MultiPerceptron(inputDimension, classCount, learningRate)`:
`classCount` all-zero weight vectors of length `inputDimension + 1`, buffer
all zero with the bias slot set to 1.0. -/
def mkMultiPerceptron (inputDimension classCount : ℕ) (learningRate : ℚ) :
    MultiPerceptron :=
  { learningRate := learningRate
    inputs := 1 :: List.replicate inputDimension 0
    inputWeights := List.replicate classCount (List.replicate (inputDimension + 1) 0) }

/-- `MultiPerceptron.prototype.getScore_`: dot product of one class's weight
vector with the input buffer. -/
def MultiPerceptron.getScore_ (p : MultiPerceptron) (classification : ℕ) : ℚ :=
  dot (p.inputWeights.getD classification []) p.inputs

/-- `MultiPerceptron.prototype.setInput_`: same buffer update as the binary
variants. -/
def MultiPerceptron.setInput_ (p : MultiPerceptron) (input : Vec) :
    MultiPerceptron :=
  { p with inputs := p.inputs.take 1 ++ input }

/-- `MultiPerceptron.prototype.getWeights`: returns the weight matrix (the
source returns the live array; in this pure embedding that is the same
value). -/
def MultiPerceptron.getWeights (p : MultiPerceptron) : List Vec :=
  p.inputWeights

/-- `MultiPerceptron.prototype.setWeights`: rejects when the class count
differs or when the length of row 0 differs from the current row 0 length —
the source checks only `weights[0].length`, no other row — and otherwise
installs the matrix as given. -/
def MultiPerceptron.setWeights (p : MultiPerceptron) (weights : List Vec) :
    Except JsError MultiPerceptron :=
  if weights.length ≠ p.inputWeights.length ∨
      (weights.headD []).length ≠ (p.inputWeights.headD []).length then
    .error .DimensionMismatch
  else .ok { p with inputWeights := weights }

/-- `MultiPerceptron.prototype.punishWeights_`:
`weights[c][i] -= learningRate * inputs_[i]` for every index of row `c`.
The source would throw on an out-of-range `c`; every call site passes an
index below the row count. -/
def MultiPerceptron.punishWeights_ (p : MultiPerceptron) (classification : ℕ) :
    MultiPerceptron :=
  let row := List.zipWith (fun w x => w - p.learningRate * x)
    (p.inputWeights.getD classification []) p.inputs
  { p with inputWeights := p.inputWeights.set classification row }

/-- `MultiPerceptron.prototype.encourageWeights_`:
`weights[c][i] += learningRate * inputs_[i]` for every index of row `c`. -/
def MultiPerceptron.encourageWeights_ (p : MultiPerceptron) (classification : ℕ) :
    MultiPerceptron :=
  let row := List.zipWith (fun w x => w + p.learningRate * x)
    (p.inputWeights.getD classification []) p.inputs
  { p with inputWeights := p.inputWeights.set classification row }

/-- The running-maximum scan of `classify`/`train`: starts from
`(getScore_(0), 0)` and for `i = 1 .. n` replaces the pair only on a strict
`score > maxScore`. -/
def maxScoreLoop (f : ℕ → ℚ) : ℕ → ℚ × ℕ
  | 0 => (f 0, 0)
  | n + 1 =>
    let mc := maxScoreLoop f n
    if f (n + 1) > mc.1 then (f (n + 1), n + 1) else mc

/-- `MultiPerceptron.prototype.classify`: dimension check, set buffer, scan
all class scores keeping the first maximum, return its class index (plus the
state with the mutated buffer). -/
def MultiPerceptron.classify (p : MultiPerceptron) (input : Vec) :
    Except JsError (ℕ × MultiPerceptron) :=
  if (input.length : ℤ) ≠ (p.inputs.length : ℤ) - 1 then .error .DimensionMismatch
  else
    let p1 := p.setInput_ input
    .ok ((maxScoreLoop p1.getScore_ (p1.inputWeights.length - 1)).2, p1)

/-- `MultiPerceptron.prototype.train`: dimension check, set buffer, compute
the winning class with the same scan; on a match return true unchanged,
otherwise encourage the expected class then punish the winner and return
false. -/
def MultiPerceptron.train (p : MultiPerceptron) (input : Vec) (expected : ℕ) :
    Except JsError (Bool × MultiPerceptron) :=
  if (input.length : ℤ) ≠ (p.inputs.length : ℤ) - 1 then .error .DimensionMismatch
  else
    let p1 := p.setInput_ input
    let maxScoreClassification := (maxScoreLoop p1.getScore_ (p1.inputWeights.length - 1)).2
    if expected = maxScoreClassification then .ok (true, p1)
    else .ok (false, (p1.encourageWeights_ expected).punishWeights_ maxScoreClassification)

/-- One training step of `MultiPerceptron.trainSet`, uncurried. -/
def MultiPerceptron.trainStep (p : MultiPerceptron) (q : Vec × ℕ) :
    Except JsError (Bool × MultiPerceptron) :=
  p.train q.1 q.2

/-- One full-batch pass of the failure-counting `trainSet`s: train on every
example in order, counting the failed ones, threading the evolving state; a
throw inside `train` aborts the pass. -/
def passCount {σ α : Type} (step : σ → α → Except JsError (Bool × σ)) :
    σ → List α → Except JsError (ℕ × σ)
  | s, [] => .ok (0, s)
  | s, a :: rest =>
    match step s a with
    | .error e => .error e
    | .ok (passed, s') =>
      match passCount step s' rest with
      | .error e => .error e
      | .ok (n, s'') => .ok (if passed then n else n + 1, s'')

/-- One full-batch pass of the canonical `trainSet` of part_000:
`allPassed = allPassed && this.train(...)`.  JS `&&` short-circuits, so once
the accumulator is false the remaining examples of the pass are not trained
at all. -/
def passAll {σ α : Type} (step : σ → α → Except JsError (Bool × σ)) :
    σ → List α → Bool → Except JsError (Bool × σ)
  | s, [], allPassed => .ok (allPassed, s)
  | s, a :: rest, allPassed =>
    if allPassed then
      match step s a with
      | .error e => .error e
      | .ok (passed, s') => passAll step s' rest passed
    else passAll step s rest false

/-- The while loop of the failure-counting `trainSet`s
(`while (numberFailed != 0 && iteration < maxIterations)`), fuel-translated:
`fuel = maxIterations.toNat - iteration` throughout, so `fuel = 0` is exactly
`iteration < maxIterations` failing.  After each pass the callback is invoked
with `(numberFailed, setSize, iteration)` — recorded on the trace — or, when
the caller supplied none, the JS TypeError is thrown.  The exit value is the
source's `iteration != maxIterations`. -/
def loopAux {σ α : Type} (step : σ → α → Except JsError (Bool × σ)) (pairs : List α)
    (setSize : ℕ) (hasCallback : Bool) (maxIterations : ℤ) :
    ℕ → σ → ℤ → ℤ → List (ℕ × ℕ × ℤ) → Except JsError (Bool × σ × List (ℕ × ℕ × ℤ))
  | 0, s, iteration, _, trace => .ok (decide (iteration ≠ maxIterations), s, trace)
  | fuel + 1, s, iteration, numberFailed, trace =>
    if numberFailed = 0 then .ok (decide (iteration ≠ maxIterations), s, trace)
    else
      match passCount step s pairs with
      | .error e => .error e
      | .ok (n, s') =>
        if hasCallback then
          loopAux step pairs setSize hasCallback maxIterations fuel s' (iteration + 1)
            (n : ℤ) (trace ++ [(n, setSize, iteration)])
        else .error .CallbackNotAFunction

/-- The while loop of the canonical `trainSet`
(`while (!allPassed && iteration < maxIterations)`), fuel-translated the same
way. -/
def canonLoopAux {σ α : Type} (step : σ → α → Except JsError (Bool × σ)) (pairs : List α)
    (maxIterations : ℤ) : ℕ → σ → ℤ → Bool → Except JsError (Bool × σ)
  | 0, s, iteration, _ => .ok (decide (iteration ≠ maxIterations), s)
  | fuel + 1, s, iteration, allPassed =>
    if allPassed then .ok (decide (iteration ≠ maxIterations), s)
    else
      match passAll step s pairs true with
      | .error e => .error e
      | .ok (ap, s') => canonLoopAux step pairs maxIterations fuel s' (iteration + 1) ap

/-- `BinaryPerceptron.prototype.trainSet`: set-size check, then the counting
loop starting from `numberFailed = -1`, `iteration = 0`, empty callback
trace. -/
def BinaryPerceptron.trainSet (p : BinaryPerceptron) (inputSet : List Vec)
    (expectedSet : List Bool) (maxIterations : ℤ) (hasCallback : Bool) :
    Except JsError (Bool × BinaryPerceptron × List (ℕ × ℕ × ℤ)) :=
  if inputSet.length ≠ expectedSet.length then .error .SetSizeMismatch
  else loopAux BinaryPerceptron.trainStep (inputSet.zip expectedSet) inputSet.length
    hasCallback maxIterations maxIterations.toNat p 0 (-1) []

/-- `Perceptron.prototype.trainSet` (part_000): set-size check, then the
boolean-AND loop starting from `allPassed = false`, `iteration = 0`; no
callback, no failure count. -/
def Perceptron.trainSet (p : BinaryPerceptron) (inputSet : List Vec)
    (expectedSet : List Bool) (maxIterations : ℤ) :
    Except JsError (Bool × BinaryPerceptron) :=
  if inputSet.length ≠ expectedSet.length then .error .SetSizeMismatch
  else canonLoopAux BinaryPerceptron.trainStep (inputSet.zip expectedSet)
    maxIterations maxIterations.toNat p 0 false

/-- `MultiPerceptron.prototype.trainSet`: identical loop to the binary
counting variant, stepping with `MultiPerceptron.train`. -/
def MultiPerceptron.trainSet (p : MultiPerceptron) (inputSet : List Vec)
    (expectedSet : List ℕ) (maxIterations : ℤ) (hasCallback : Bool) :
    Except JsError (Bool × MultiPerceptron × List (ℕ × ℕ × ℤ)) :=
  if inputSet.length ≠ expectedSet.length then .error .SetSizeMismatch
  else loopAux MultiPerceptron.trainStep (inputSet.zip expectedSet) inputSet.length
    hasCallback maxIterations maxIterations.toNat p 0 (-1) []

/-- Specification-side reading of the counting loop: the list of per-pass
failure counts (and the final state), produced by the same pass function and
the same stopping rule — stop on a zero-failure pass or when the budget is
exhausted — but with no callback and no trace.  Used to state what the
callback trace and the return value of `trainSet` are. -/
def passListAux {σ α : Type} (step : σ → α → Except JsError (Bool × σ)) (pairs : List α) :
    ℕ → σ → ℤ → Except JsError (List ℕ × σ)
  | 0, s, _ => .ok ([], s)
  | fuel + 1, s, numberFailed =>
    if numberFailed = 0 then .ok ([], s)
    else
      match passCount step s pairs with
      | .error e => .error e
      | .ok (n, s') =>
        match passListAux step pairs fuel s' (n : ℤ) with
        | .error e => .error e
        | .ok (cs, s'') => .ok (n :: cs, s'')

/-- Per-pass failure counts of `BinaryPerceptron.trainSet` on the given data
(specification-side reading). -/
def BinaryPerceptron.passFailures (p : BinaryPerceptron) (inputSet : List Vec)
    (expectedSet : List Bool) (maxIterations : ℤ) :
    Except JsError (List ℕ × BinaryPerceptron) :=
  passListAux BinaryPerceptron.trainStep (inputSet.zip expectedSet)
    maxIterations.toNat p (-1)

/-- Per-pass failure counts of `MultiPerceptron.trainSet` on the given data
(specification-side reading). -/
def MultiPerceptron.passFailures (p : MultiPerceptron) (inputSet : List Vec)
    (expectedSet : List ℕ) (maxIterations : ℤ) :
    Except JsError (List ℕ × MultiPerceptron) :=
  passListAux MultiPerceptron.trainStep (inputSet.zip expectedSet)
    maxIterations.toNat p (-1)

/-- The callback-argument trace that a run producing the per-pass failure
counts `cs` generates: one `(failureCount, setSize, passIndex)` triple per
pass, pass indices counting up from `start`. -/
def traceOf (setSize : ℕ) : ℤ → List ℕ → List (ℕ × ℕ × ℤ)
  | _, [] => []
  | start, n :: rest => (n, setSize, start) :: traceOf setSize (start + 1) rest

/-- The score `classify`/`train` of `MultiPerceptron` assign to class `j` on
the given caller input: the class's weight row dotted with the buffer after
`setInput_`. -/
def scoreAt (p : MultiPerceptron) (input : Vec) (j : ℕ) : ℚ :=
  dot (p.inputWeights.getD j []) (p.inputs.take 1 ++ input)

/-- The class index `MultiPerceptron.train`/`classify` predict for the given
input: first index attaining the running maximum. -/
def predictedClass (p : MultiPerceptron) (input : Vec) : ℕ :=
  (maxScoreLoop (scoreAt p input) (p.inputWeights.length - 1)).2

/-- Row `c` of the weight matrix. -/
def rowAt (p : MultiPerceptron) (c : ℕ) : Vec :=
  p.inputWeights.getD c []

/-- The predicted value `train` of the binary variants derives: 1 when the
score of the buffered input exceeds the threshold, else 0. -/
def predictedValue (p : BinaryPerceptron) (input : Vec) : ℚ :=
  if dot p.inputWeights ((1 : ℚ) :: input) > p.threshold then 1 else 0

/-- The expected value `train` derives from the boolean label. -/
def expectedValueOf (expected : Bool) : ℚ :=
  if expected then 1 else 0

/-- The weight vector a failing binary `train` call installs:
`weight[i] + learningRate * (expectedValue - predicted) * bufferedInput[i]`
over the buffered input `1 :: input`. -/
def trainedWeights (p : BinaryPerceptron) (input : Vec) (expected : Bool) : Vec :=
  List.zipWith
    (fun w x => w + p.learningRate * (expectedValueOf expected - predictedValue p input) * x)
    p.inputWeights ((1 : ℚ) :: input)

/-! ## Helper lemmas -/

/-- The dot product against an all-zero weight vector is zero. -/
lemma dot_replicate_zero (n : ℕ) (l : Vec) : dot (List.replicate n 0) l = 0 := by
  induction n generalizing l with
  | zero => simp [dot]
  | succ n ih =>
    cases l with
    | nil => simp [dot]
    | cons a l' =>
      simp only [List.replicate, dot, List.zipWith_cons_cons, List.sum_cons, zero_mul, zero_add]
      exact ih l'

/-- Indexing a `zipWith` elementwise, with in-range indices. -/
lemma getD_zipWith (f : ℚ → ℚ → ℚ) :
    ∀ (l1 l2 : Vec) (i : ℕ), i < l1.length → i < l2.length →
      (List.zipWith f l1 l2).getD i 0 = f (l1.getD i 0) (l2.getD i 0) := by
  intro l1
  induction l1 with
  | nil => intro l2 i h1 _; simp at h1
  | cons a l1' ih =>
    intro l2 i h1 h2
    cases l2 with
    | nil => simp at h2
    | cons b l2' =>
      cases i with
      | zero => simp
      | succ i =>
        simp only [List.zipWith_cons_cons, List.getD_cons_succ]
        exact ih l2' i (by simpa using h1) (by simpa using h2)

/-- Indexing `List.set` at the written (in-range) position. -/
lemma getD_set_eq {α : Type} (d : α) :
    ∀ (l : List α) (i : ℕ) (a : α), i < l.length → (l.set i a).getD i d = a := by
  intro l
  induction l with
  | nil => intro i a h; simp at h
  | cons b l' ih =>
    intro i a h
    cases i with
    | zero => simp
    | succ i => simpa using ih i a (by simpa using h)

/-- Indexing `List.set` away from the written position. -/
lemma getD_set_ne {α : Type} (d : α) :
    ∀ (l : List α) (i j : ℕ) (a : α), i ≠ j → (l.set i a).getD j d = l.getD j d := by
  intro l
  induction l with
  | nil => intro i j a _; simp
  | cons b l' ih =>
    intro i j a hij
    cases i with
    | zero =>
      cases j with
      | zero => exact absurd rfl hij
      | succ j => simp
    | succ i =>
      cases j with
      | zero => simp
      | succ j => simpa using ih i j a (by omega)

/-- Once the canonical pass accumulator is false, the rest of the pass is
skipped entirely: no `train` calls, no state change. -/
lemma passAll_skip {σ α : Type} (step : σ → α → Except JsError (Bool × σ))
    (l : List α) : ∀ s : σ, passAll step s l false = .ok (false, s) := by
  induction l with
  | nil => intro s; rfl
  | cons a rest ih => intro s; simpa [passAll] using ih s

/-- `setInput_` preserves the buffer length when the caller's vector has the
checked length. -/
lemma setInput_length (p : BinaryPerceptron) (input : Vec)
    (h : (input.length : ℤ) = (p.inputs.length : ℤ) - 1) :
    (p.setInput_ input).inputs.length = p.inputs.length := by
  simp only [BinaryPerceptron.setInput_, List.length_append, List.length_take]
  omega

/-- A `train` call on a vector of the checked length never throws, and
preserves the buffer length. -/
lemma train_ok_of_dim (p : BinaryPerceptron) (input : Vec) (e : Bool)
    (h : (input.length : ℤ) = (p.inputs.length : ℤ) - 1) :
    ∃ r p', p.train input e = .ok (r, p') ∧ p'.inputs.length = p.inputs.length := by
  have hni : ¬ ((input.length : ℤ) ≠ (p.inputs.length : ℤ) - 1) := by omega
  have hp1 : (p.setInput_ input).inputs.length = p.inputs.length := setInput_length p input h
  unfold BinaryPerceptron.train
  rw [if_neg hni]
  dsimp only
  cases e with
  | false =>
    by_cases hsc : (p.setInput_ input).getScore_ > (p.setInput_ input).threshold
    · exact ⟨false, (p.setInput_ input).updateWeights_ (0 - 1),
        by simp [hsc], by simpa [BinaryPerceptron.updateWeights_] using hp1⟩
    · exact ⟨true, p.setInput_ input, by simp [hsc], hp1⟩
  | true =>
    by_cases hsc : (p.setInput_ input).getScore_ > (p.setInput_ input).threshold
    · exact ⟨true, p.setInput_ input, by simp [hsc], hp1⟩
    · exact ⟨false, (p.setInput_ input).updateWeights_ (1 - 0),
        by simp [hsc], by simpa [BinaryPerceptron.updateWeights_] using hp1⟩

/-- A whole counting pass on well-dimensioned examples never throws, and
preserves the buffer length. -/
lemma passCount_ok_of_dims (pairs : List (Vec × Bool)) :
    ∀ p : BinaryPerceptron,
      (∀ q ∈ pairs, ((q.1 : Vec).length : ℤ) = (p.inputs.length : ℤ) - 1) →
      ∃ n p', passCount BinaryPerceptron.trainStep p pairs = .ok (n, p') ∧
        p'.inputs.length = p.inputs.length := by
  induction pairs with
  | nil => intro p _; exact ⟨0, p, rfl, rfl⟩
  | cons a rest ih =>
    intro p hdim
    obtain ⟨r, p', hstep, hlen⟩ := train_ok_of_dim p a.1 a.2 (hdim a (by simp))
    have hstep' : BinaryPerceptron.trainStep p a = .ok (r, p') := hstep
    obtain ⟨n, p'', hrest, hlen'⟩ :=
      ih p' (fun q hq => by rw [hlen]; exact hdim q (List.mem_cons_of_mem a hq))
    refine ⟨if r then n else n + 1, p'', ?_, by rw [hlen', hlen]⟩
    simp [passCount, hstep', hrest]

/-- The traced, callback-invoking loop of `trainSet` agrees with the plain
per-pass failure-count reading `passListAux`: same passes, same final state,
one callback entry `(count, setSize, passIndex)` per executed pass, and the
exit value is `iteration != maxIterations` with `iteration` equal to the
number of executed passes. -/
lemma loopAux_eq_passListAux {σ α : Type} (step : σ → α → Except JsError (Bool × σ))
    (pairs : List α) (setSize : ℕ) (m : ℤ) :
    ∀ (fuel : ℕ) (s : σ) (iteration numberFailed : ℤ) (trace : List (ℕ × ℕ × ℤ)),
      loopAux step pairs setSize true m fuel s iteration numberFailed trace =
        match passListAux step pairs fuel s numberFailed with
        | .error e => .error e
        | .ok (cs, s') =>
          .ok (decide (iteration + (cs.length : ℤ) ≠ m), s',
            trace ++ traceOf setSize iteration cs) := by
  intro fuel
  induction fuel with
  | zero => intro s it nf tr; simp [loopAux, passListAux, traceOf]
  | succ fuel ih =>
    intro s it nf tr
    by_cases hnf : nf = 0
    · simp [loopAux, passListAux, hnf, traceOf]
    · simp only [loopAux, passListAux, if_neg hnf]
      cases hpc : passCount step s pairs with
      | error e => simp
      | ok v =>
        obtain ⟨n, s'⟩ := v
        simp only [if_true]
        rw [ih s' (it + 1) (n : ℤ) (tr ++ [(n, setSize, it)])]
        cases hpl : passListAux step pairs fuel s' (n : ℤ) with
        | error e => simp
        | ok w =>
          obtain ⟨cs, s''⟩ := w
          simp only [traceOf, List.append_assoc, List.singleton_append, List.length_cons]
          have harith : (it + 1 + (cs.length : ℤ) ≠ m) ↔ (it + ((cs.length + 1 : ℕ) : ℤ) ≠ m) := by
            push_cast
            omega
          rw [decide_eq_decide.mpr harith]

/-- Structural facts about the per-pass failure counts: at most `fuel` passes
run; a pass only runs while the previous count (or the initial `-1`) is
nonzero; stopping before the budget means the last executed pass had zero
failures; every pass except possibly the last fails at least one example. -/
lemma passListAux_spec {σ α : Type} (step : σ → α → Except JsError (Bool × σ))
    (pairs : List α) :
    ∀ (fuel : ℕ) (s : σ) (nf : ℤ) (cs : List ℕ) (s' : σ),
      passListAux step pairs fuel s nf = .ok (cs, s') →
        cs.length ≤ fuel ∧
        (cs ≠ [] → nf ≠ 0) ∧
        (cs = [] → nf = 0 ∨ fuel = 0) ∧
        (cs.length < fuel → cs = [] ∨ cs.getLast? = some 0) ∧
        (∀ k, k + 1 < cs.length → cs.getD k 0 ≠ 0) := by
  intro fuel
  induction fuel with
  | zero =>
    intro s nf cs s' h
    simp only [passListAux] at h
    obtain ⟨rfl, rfl⟩ : cs = [] ∧ s' = s := by
      cases h; exact ⟨rfl, rfl⟩
    refine ⟨by simp, by simp, fun _ => Or.inr rfl, by simp, by simp⟩
  | succ fuel ih =>
    intro s nf cs s' h
    by_cases hnf : nf = 0
    · simp only [passListAux, if_pos hnf] at h
      obtain ⟨rfl, rfl⟩ : cs = [] ∧ s' = s := by
        cases h; exact ⟨rfl, rfl⟩
      refine ⟨by simp, by simp, fun _ => Or.inl hnf, by simp, by simp⟩
    · simp only [passListAux, if_neg hnf] at h
      cases hpc : passCount step s pairs with
      | error e => rw [hpc] at h; exact absurd h (by simp)
      | ok v =>
        obtain ⟨n, s1⟩ := v
        rw [hpc] at h
        dsimp only at h
        cases hpl : passListAux step pairs fuel s1 (n : ℤ) with
        | error e => rw [hpl] at h; exact absurd h (by simp)
        | ok w =>
          obtain ⟨cs', s''⟩ := w
          rw [hpl] at h
          dsimp only at h
          have hcs : cs = n :: cs' := by cases h; rfl
          subst hcs
          obtain ⟨ih1, ih2, ih3, ih4, ih5⟩ := ih s1 (n : ℤ) cs' s'' hpl
          refine ⟨by simpa using ih1, fun _ => hnf, by simp, ?_, ?_⟩
          · intro hlen
            have hlt : cs'.length < fuel := by simpa using hlen
            right
            rcases ih4 hlt with hnil | hlast
            · subst hnil
              rcases ih3 rfl with hn0 | hf0
              · have : n = 0 := by exact_mod_cast hn0
                simp [this]
              · omega
            · cases cs' with
              | nil => simp at hlast
              | cons c cs'' => simpa using hlast
          · intro k hk
            cases k with
            | zero =>
              have hcs' : cs' ≠ [] := by
                intro hnil
                rw [hnil] at hk
                simp at hk
              have : (n : ℤ) ≠ 0 := ih2 hcs'
              simpa using this
            | succ k =>
              simpa using ih5 k (by simpa using hk)

/-- When at least one pass runs and the counting run succeeds, the first pass
itself succeeded. -/
lemma passListAux_first_pass {σ α : Type} (step : σ → α → Except JsError (Bool × σ))
    (pairs : List α) (fuel : ℕ) (s : σ) (nf : ℤ) (cs : List ℕ) (s' : σ)
    (hnf : nf ≠ 0) (h : passListAux step pairs (fuel + 1) s nf = .ok (cs, s')) :
    ∃ n s1, passCount step s pairs = .ok (n, s1) := by
  simp only [passListAux, if_neg hnf] at h
  cases hpc : passCount step s pairs with
  | error e => rw [hpc] at h; exact absurd h (by simp)
  | ok v =>
    obtain ⟨n, s1⟩ := v
    exact ⟨n, s1, rfl⟩

/-- Without a callback, the loop throws the TypeError as soon as the first
pass completes. -/
lemma loopAux_no_callback {σ α : Type} (step : σ → α → Except JsError (Bool × σ))
    (pairs : List α) (setSize : ℕ) (m : ℤ) (fuel : ℕ) (s : σ)
    (iteration nf : ℤ) (trace : List (ℕ × ℕ × ℤ)) (hnf : nf ≠ 0)
    (n : ℕ) (s1 : σ) (hpc : passCount step s pairs = .ok (n, s1)) :
    loopAux step pairs setSize false m (fuel + 1) s iteration nf trace =
      .error .CallbackNotAFunction := by
  simp [loopAux, hnf, hpc]

/-- The running-maximum scan returns an index in range whose score is the
maximum, and every strictly smaller index scores strictly below it (first
index wins ties). -/
lemma maxScoreLoop_spec (f : ℕ → ℚ) (n : ℕ) :
    (maxScoreLoop f n).2 ≤ n ∧ (maxScoreLoop f n).1 = f (maxScoreLoop f n).2 ∧
    (∀ j, j ≤ n → f j ≤ (maxScoreLoop f n).1) ∧
    (∀ j, j < (maxScoreLoop f n).2 → f j < (maxScoreLoop f n).1) := by
  induction n with
  | zero =>
    refine ⟨le_refl 0, rfl, ?_, ?_⟩
    · intro j hj
      interval_cases j
      exact le_refl _
    · intro j hj
      simp [maxScoreLoop] at hj
  | succ n ih =>
    obtain ⟨ih1, ih2, ih3, ih4⟩ := ih
    by_cases hgt : f (n + 1) > (maxScoreLoop f n).1
    · have hms : maxScoreLoop f (n + 1) = (f (n + 1), n + 1) := by
        simp [maxScoreLoop, hgt]
      rw [hms]
      refine ⟨le_refl _, rfl, ?_, ?_⟩
      · intro j hj
        rcases Nat.lt_or_ge j (n + 1) with hlt | hge
        · exact le_of_lt (lt_of_le_of_lt (ih3 j (by omega)) hgt)
        · have : j = n + 1 := by omega
          simp [this]
      · intro j hj
        exact lt_of_le_of_lt (ih3 j (by omega)) hgt
    · have hms : maxScoreLoop f (n + 1) = maxScoreLoop f n := by
        simp [maxScoreLoop, hgt]
      rw [hms]
      refine ⟨by omega, ih2, ?_, ih4⟩
      intro j hj
      rcases Nat.lt_or_ge j (n + 1) with hlt | hge
      · exact ih3 j (by omega)
      · have : j = n + 1 := by omega
        rw [this]
        exact le_of_not_lt hgt

/-! ## Claim theorems -/

/-- Claim C9: for every variant, `trainSet` with `maxIterations ≤ 0` executes
no pass and leaves the state (weights and buffer) unchanged, yet returns
`false` when `maxIterations = 0` and `true` when `maxIterations < 0` (the
source returns `iteration != maxIterations` with `iteration` still 0). -/
theorem trainSet_nonpositive_iterations
    (pB : BinaryPerceptron) (insB : List Vec) (expsB : List Bool)
    (pM : MultiPerceptron) (insM : List Vec) (expsM : List ℕ)
    (m : ℤ) (cb cbM : Bool)
    (hm : m ≤ 0)
    (hlB : insB.length = expsB.length) (hlM : insM.length = expsM.length) :
    (m = 0 →
      BinaryPerceptron.trainSet pB insB expsB m cb = .ok (false, pB, []) ∧
      Perceptron.trainSet pB insB expsB m = .ok (false, pB) ∧
      MultiPerceptron.trainSet pM insM expsM m cbM = .ok (false, pM, [])) ∧
    (m < 0 →
      BinaryPerceptron.trainSet pB insB expsB m cb = .ok (true, pB, []) ∧
      Perceptron.trainSet pB insB expsB m = .ok (true, pB) ∧
      MultiPerceptron.trainSet pM insM expsM m cbM = .ok (true, pM, [])) := by
  have htn : m.toNat = 0 := Int.toNat_of_nonpos hm
  constructor
  · rintro rfl
    refine ⟨?_, ?_, ?_⟩ <;>
      simp [BinaryPerceptron.trainSet, Perceptron.trainSet, MultiPerceptron.trainSet,
        hlB, hlM, loopAux, canonLoopAux]
  · intro hlt
    have hd : decide ((0 : ℤ) ≠ m) = true := by
      apply decide_eq_true
      omega
    refine ⟨?_, ?_, ?_⟩ <;>
      simp [BinaryPerceptron.trainSet, Perceptron.trainSet, MultiPerceptron.trainSet,
        hlB, hlM, htn, loopAux, canonLoopAux, hd]

/-- Witness for C9 at `maxIterations = -1`: no pass executes, the perceptron
is returned unchanged, and the result is `true`. -/
theorem trainSet_nonpositive_iterations_witness :
    BinaryPerceptron.trainSet (mkBinaryPerceptron 1 1 0) [[1]] [true] (-1) true =
      .ok (true, mkBinaryPerceptron 1 1 0, []) :=
  ((trainSet_nonpositive_iterations (mkBinaryPerceptron 1 1 0) [[1]] [true]
    (mkMultiPerceptron 1 2 1) [[1]] [0] (-1) true true (by norm_num) rfl rfl).2
    (by norm_num)).1

/-- Claim C10: a freshly constructed binary perceptron (the shared
`BinaryPerceptron`/`Perceptron` code) with a strictly negative threshold
classifies every input of the correct dimension as `true`: the all-zero
weights give score 0 and `0 > threshold` holds. -/
theorem fresh_negative_threshold_classifies_true
    (inputDimension : ℕ) (learningRate threshold : ℚ) (input : Vec)
    (ht : threshold < 0) (hlen : input.length = inputDimension) :
    (mkBinaryPerceptron inputDimension learningRate threshold).classify input =
      .ok (true, (mkBinaryPerceptron inputDimension learningRate threshold).setInput_ input) := by
  have hdim : ¬ ((input.length : ℤ) ≠
      (((mkBinaryPerceptron inputDimension learningRate threshold).inputs.length : ℕ) : ℤ) - 1) := by
    simp [mkBinaryPerceptron]
    omega
  unfold BinaryPerceptron.classify
  rw [if_neg hdim]
  have hscore : ((mkBinaryPerceptron inputDimension learningRate threshold).setInput_ input).getScore_ = 0 := by
    simp [BinaryPerceptron.getScore_, BinaryPerceptron.setInput_, mkBinaryPerceptron]
    exact dot_replicate_zero _ _
  have hth : ((mkBinaryPerceptron inputDimension learningRate threshold).setInput_ input).threshold = threshold := rfl
  dsimp only
  rw [hscore, hth]
  have : decide ((0 : ℚ) > threshold) = true := decide_eq_true ht
  rw [this]

/-- Witness for C10: dimension 1, threshold −1, arbitrary input `[5]`. -/
theorem fresh_negative_threshold_classifies_true_witness :
    (mkBinaryPerceptron 1 1 (-1)).classify [5] =
      .ok (true, (mkBinaryPerceptron 1 1 (-1)).setInput_ [5]) :=
  fresh_negative_threshold_classifies_true 1 1 (-1) [5] (by norm_num) rfl

/-- Claim C6: in all three components every `classify`/`train` call with an
input vector whose length differs from the configured dimension fails with
`DimensionMismatch`, and every `trainSet` call with differing set lengths
fails with `SetSizeMismatch`; each check is the first statement of the
method, so (in this state-passing embedding) the erroring call returns no
new state — the weights and buffer are the caller's unchanged pre-call
values. -/
theorem dimension_and_set_size_validation
    (pB : BinaryPerceptron) (pM : MultiPerceptron) (dB dM : ℕ)
    (input inputM : Vec) (e : Bool) (c : ℕ)
    (insB : List Vec) (expsB : List Bool) (insM : List Vec) (expsM : List ℕ)
    (m : ℤ) (cb cbM : Bool)
    (hdB : pB.inputs.length = dB + 1) (hni : input.length ≠ dB)
    (hdM : pM.inputs.length = dM + 1) (hniM : inputM.length ≠ dM)
    (hsB : insB.length ≠ expsB.length) (hsM : insM.length ≠ expsM.length) :
    pB.train input e = .error .DimensionMismatch ∧
    pB.classify input = .error .DimensionMismatch ∧
    pM.train inputM c = .error .DimensionMismatch ∧
    pM.classify inputM = .error .DimensionMismatch ∧
    BinaryPerceptron.trainSet pB insB expsB m cb = .error .SetSizeMismatch ∧
    Perceptron.trainSet pB insB expsB m = .error .SetSizeMismatch ∧
    MultiPerceptron.trainSet pM insM expsM m cbM = .error .SetSizeMismatch := by
  have hB : (input.length : ℤ) ≠ (pB.inputs.length : ℤ) - 1 := by
    rw [hdB]
    push_cast
    omega
  have hM : (inputM.length : ℤ) ≠ (pM.inputs.length : ℤ) - 1 := by
    rw [hdM]
    push_cast
    omega
  refine ⟨?_, ?_, ?_, ?_, ?_, ?_, ?_⟩
  · simp [BinaryPerceptron.train, hB]
  · simp [BinaryPerceptron.classify, hB]
  · simp [MultiPerceptron.train, hM]
  · simp [MultiPerceptron.classify, hM]
  · simp [BinaryPerceptron.trainSet, hsB]
  · simp [Perceptron.trainSet, hsB]
  · simp [MultiPerceptron.trainSet, hsM]

/-- Witness for C6: a 1-dimensional binary perceptron and a 1-dimensional
two-class perceptron fed 2-element inputs, and `trainSet` calls with sets of
lengths 1 and 2. -/
theorem dimension_and_set_size_validation_witness :
    (mkBinaryPerceptron 1 1 0).train [1, 2] true = .error .DimensionMismatch :=
  (dimension_and_set_size_validation (mkBinaryPerceptron 1 1 0) (mkMultiPerceptron 1 2 1)
    1 1 [1, 2] [1, 2] true 0 [[1]] [true, false] [[1]] [0, 1] 3 true true
    (by simp [mkBinaryPerceptron]) (by norm_num)
    (by simp [mkMultiPerceptron]) (by norm_num)
    (by norm_num) (by norm_num)).1

/-- Claim C2 (code bug): `MultiPerceptron.setWeights` validates only the class
count and the length of row 0.  On a 2-class, input-dimension-1 instance it
accepts the ragged matrix `[[0, 0], [5]]` — whose second row has length 1
instead of `inputDimension + 1 = 2` — installs it unchanged, and a subsequent
`getWeights` returns it; the claim (and spec §4.2/§8) requires a
`DimensionMismatch` failure here with the old weights retained. -/
theorem setWeights_accepts_ragged_matrix :
    (mkMultiPerceptron 1 2 1).setWeights [[0, 0], [5]] =
      .ok { learningRate := 1, inputs := [1, 0], inputWeights := [[0, 0], [5]] } ∧
    MultiPerceptron.getWeights
      { learningRate := (1 : ℚ), inputs := [1, 0], inputWeights := [[0, 0], [5]] } =
      [[0, 0], [5]] ∧
    ([5] : Vec).length ≠ 1 + 1 := by
  refine ⟨?_, rfl, by norm_num⟩
  norm_num [mkMultiPerceptron, MultiPerceptron.setWeights, List.replicate]

/-- Claim C1 counterexample: on the 1-dimensional perceptron with learning
rate 1 and threshold 0, the training set `[[1], [1]]` with expectations
`[true, false]` and one allowed pass, the threshold variant trains both
examples (both fail, callback record `(2, 2, 0)`) and ends with weights
`[0, 0]`, while the canonical variant short-circuits after the first failure
and ends with weights `[1, 1]`: the two `trainSet`s do not perform the same
train calls and do not end with the same weights. -/
theorem canonical_threshold_divergence_example :
    BinaryPerceptron.trainSet (mkBinaryPerceptron 1 1 0) [[1], [1]] [true, false] 1 true =
      .ok (false, ⟨1, 0, [1, 1], [0, 0]⟩, [(2, 2, 0)]) ∧
    Perceptron.trainSet (mkBinaryPerceptron 1 1 0) [[1], [1]] [true, false] 1 =
      .ok (false, ⟨1, 0, [1, 1], [1, 1]⟩) ∧
    ([0, 0] : Vec) ≠ [1, 1] := by
  refine ⟨?_, ?_, by norm_num⟩
  · norm_num [BinaryPerceptron.trainSet, loopAux, passCount, BinaryPerceptron.trainStep,
      BinaryPerceptron.train, BinaryPerceptron.setInput_, BinaryPerceptron.getScore_,
      BinaryPerceptron.updateWeights_, dot, mkBinaryPerceptron, List.replicate, Int.toNat]
  · norm_num [Perceptron.trainSet, canonLoopAux, passAll, BinaryPerceptron.trainStep,
      BinaryPerceptron.train, BinaryPerceptron.setInput_, BinaryPerceptron.getScore_,
      BinaryPerceptron.updateWeights_, dot, mkBinaryPerceptron, List.replicate, Int.toNat]

/-- Claim C3 counterexample: `trainSet` without a callback does not complete
normally — on a set whose first pass fails an example, both the threshold
and the multi-class variant throw the TypeError when the first pass tries to
invoke the missing callback. -/
theorem trainSet_without_callback_errors :
    BinaryPerceptron.trainSet (mkBinaryPerceptron 1 1 0) [[1]] [true] 1 false =
      .error .CallbackNotAFunction ∧
    MultiPerceptron.trainSet (mkMultiPerceptron 1 2 1) [[1]] [1] 1 false =
      .error .CallbackNotAFunction := by
  constructor
  · norm_num [BinaryPerceptron.trainSet, loopAux, passCount, BinaryPerceptron.trainStep,
      BinaryPerceptron.train, BinaryPerceptron.setInput_, BinaryPerceptron.getScore_,
      BinaryPerceptron.updateWeights_, dot, mkBinaryPerceptron, List.replicate, Int.toNat]
  · norm_num [MultiPerceptron.trainSet, loopAux, passCount, MultiPerceptron.trainStep,
      MultiPerceptron.train, MultiPerceptron.setInput_, MultiPerceptron.getScore_,
      MultiPerceptron.encourageWeights_, MultiPerceptron.punishWeights_, maxScoreLoop,
      dot, mkMultiPerceptron, List.replicate, Int.toNat]

/-- Claim C4 counterexample: with `maxIterations = -1` both counting variants
return `true` — signalling convergence — although not a single pass was
executed (the callback trace and the per-pass failure-count list are both
empty, so no zero-failure pass ever happened). -/
theorem trainSet_negative_budget_reports_true :
    BinaryPerceptron.trainSet (mkBinaryPerceptron 1 1 0) [[1]] [true] (-1) true =
      .ok (true, mkBinaryPerceptron 1 1 0, []) ∧
    MultiPerceptron.trainSet (mkMultiPerceptron 1 2 1) [[1]] [1] (-1) true =
      .ok (true, mkMultiPerceptron 1 2 1, []) ∧
    BinaryPerceptron.passFailures (mkBinaryPerceptron 1 1 0) [[1]] [true] (-1) =
      .ok ([], mkBinaryPerceptron 1 1 0) := by
  refine ⟨?_, ?_, ?_⟩
  · norm_num [BinaryPerceptron.trainSet, loopAux, Int.toNat]
  · norm_num [MultiPerceptron.trainSet, loopAux, Int.toNat]
  · norm_num [BinaryPerceptron.passFailures, passListAux, Int.toNat]

/-- With a callback supplied, `BinaryPerceptron.trainSet` runs exactly the
passes of its failure-count reading, returns `iteration != maxIterations`
with `iteration` the number of executed passes, ends in the same state, and
the callback trace lists one `(count, setSize, passIndex)` entry per pass. -/
lemma trainSetBP_eq_of_passFailures (pB : BinaryPerceptron) (insB : List Vec)
    (expsB : List Bool) (m : ℤ) (csB : List ℕ) (pB' : BinaryPerceptron)
    (hlB : insB.length = expsB.length)
    (hpB : pB.passFailures insB expsB m = .ok (csB, pB')) :
    BinaryPerceptron.trainSet pB insB expsB m true =
      .ok (decide ((csB.length : ℤ) ≠ m), pB', traceOf insB.length 0 csB) := by
  have hpB' : passListAux BinaryPerceptron.trainStep (insB.zip expsB) m.toNat pB (-1) =
      .ok (csB, pB') := hpB
  unfold BinaryPerceptron.trainSet
  rw [if_neg (by simp [hlB]), loopAux_eq_passListAux, hpB']
  dsimp only
  have harith : ((0 : ℤ) + (csB.length : ℤ) ≠ m) ↔ ((csB.length : ℤ) ≠ m) := by omega
  have hdec : decide ((0 : ℤ) + (csB.length : ℤ) ≠ m) = decide ((csB.length : ℤ) ≠ m) :=
    decide_eq_decide.mpr harith
  rw [hdec]
  simp

/-- `MultiPerceptron.trainSet` analogue of `trainSetBP_eq_of_passFailures`. -/
lemma trainSetMP_eq_of_passFailures (pM : MultiPerceptron) (insM : List Vec)
    (expsM : List ℕ) (m : ℤ) (csM : List ℕ) (pM' : MultiPerceptron)
    (hlM : insM.length = expsM.length)
    (hpM : pM.passFailures insM expsM m = .ok (csM, pM')) :
    MultiPerceptron.trainSet pM insM expsM m true =
      .ok (decide ((csM.length : ℤ) ≠ m), pM', traceOf insM.length 0 csM) := by
  have hpM' : passListAux MultiPerceptron.trainStep (insM.zip expsM) m.toNat pM (-1) =
      .ok (csM, pM') := hpM
  unfold MultiPerceptron.trainSet
  rw [if_neg (by simp [hlM]), loopAux_eq_passListAux, hpM']
  dsimp only
  have harith : ((0 : ℤ) + (csM.length : ℤ) ≠ m) ↔ ((csM.length : ℤ) ≠ m) := by omega
  have hdec : decide ((0 : ℤ) + (csM.length : ℤ) ≠ m) = decide ((csM.length : ℤ) ≠ m) :=
    decide_eq_decide.mpr harith
  rw [hdec]
  simp

/-- Claim C3 (amended): when the per-pass counting run succeeds, `trainSet`
of the threshold and multi-class variants invokes the callback exactly once
after each executed pass with exactly `(failureCount, setSize, passIndex)`
— the trace is `traceOf setSize 0 counts` — and produces the same final
state and the budget return value; but the callback is not optional: as soon
as at least one pass executes, calling `trainSet` without a callback throws
the TypeError instead of completing. -/
theorem trainSet_callback_trace
    (pB : BinaryPerceptron) (insB : List Vec) (expsB : List Bool)
    (pM : MultiPerceptron) (insM : List Vec) (expsM : List ℕ)
    (m : ℤ) (csB : List ℕ) (pB' : BinaryPerceptron)
    (csM : List ℕ) (pM' : MultiPerceptron)
    (hlB : insB.length = expsB.length) (hlM : insM.length = expsM.length)
    (hpB : pB.passFailures insB expsB m = .ok (csB, pB'))
    (hpM : pM.passFailures insM expsM m = .ok (csM, pM')) :
    BinaryPerceptron.trainSet pB insB expsB m true =
      .ok (decide ((csB.length : ℤ) ≠ m), pB', traceOf insB.length 0 csB) ∧
    MultiPerceptron.trainSet pM insM expsM m true =
      .ok (decide ((csM.length : ℤ) ≠ m), pM', traceOf insM.length 0 csM) ∧
    (0 < m →
      BinaryPerceptron.trainSet pB insB expsB m false = .error .CallbackNotAFunction) ∧
    (0 < m →
      MultiPerceptron.trainSet pM insM expsM m false = .error .CallbackNotAFunction) := by
  refine ⟨trainSetBP_eq_of_passFailures pB insB expsB m csB pB' hlB hpB,
    trainSetMP_eq_of_passFailures pM insM expsM m csM pM' hlM hpM, ?_, ?_⟩
  · intro hm
    obtain ⟨fuel, hfuel⟩ : ∃ fuel, m.toNat = fuel + 1 := ⟨m.toNat - 1, by omega⟩
    have hpB' : passListAux BinaryPerceptron.trainStep (insB.zip expsB) (fuel + 1) pB (-1) =
        .ok (csB, pB') := by rw [← hfuel]; exact hpB
    obtain ⟨n, s1, hpc⟩ := passListAux_first_pass BinaryPerceptron.trainStep
      (insB.zip expsB) fuel pB (-1) csB pB' (by norm_num) hpB'
    unfold BinaryPerceptron.trainSet
    rw [if_neg (by simp [hlB]), hfuel]
    exact loopAux_no_callback BinaryPerceptron.trainStep (insB.zip expsB) insB.length m
      fuel pB 0 (-1) [] (by norm_num) n s1 hpc
  · intro hm
    obtain ⟨fuel, hfuel⟩ : ∃ fuel, m.toNat = fuel + 1 := ⟨m.toNat - 1, by omega⟩
    have hpM' : passListAux MultiPerceptron.trainStep (insM.zip expsM) (fuel + 1) pM (-1) =
        .ok (csM, pM') := by rw [← hfuel]; exact hpM
    obtain ⟨n, s1, hpc⟩ := passListAux_first_pass MultiPerceptron.trainStep
      (insM.zip expsM) fuel pM (-1) csM pM' (by norm_num) hpM'
    unfold MultiPerceptron.trainSet
    rw [if_neg (by simp [hlM]), hfuel]
    exact loopAux_no_callback MultiPerceptron.trainStep (insM.zip expsM) insM.length m
      fuel pM 0 (-1) [] (by norm_num) n s1 hpc

/-- Witness for C3 (amended) on a converging one-example set: one pass runs,
the callback is invoked once with `(0, 1, 0)`, and `trainSet` returns
`true`. -/
theorem trainSet_callback_trace_witness :
    BinaryPerceptron.trainSet (mkBinaryPerceptron 1 1 0) [[1]] [false] 2 true =
      .ok (true, ⟨1, 0, [1, 1], [0, 0]⟩, [(0, 1, 0)]) := by
  have h := (trainSet_callback_trace (mkBinaryPerceptron 1 1 0) [[1]] [false]
      (mkMultiPerceptron 1 2 1) [[1]] [0] 2 [0] ⟨1, 0, [1, 1], [0, 0]⟩
      [0] ⟨1, [1, 1], [[0, 0], [0, 0]]⟩ rfl rfl
      (by norm_num [BinaryPerceptron.passFailures, passListAux, passCount,
        BinaryPerceptron.trainStep, BinaryPerceptron.train, BinaryPerceptron.setInput_,
        BinaryPerceptron.getScore_, dot, mkBinaryPerceptron, List.replicate, Int.toNat])
      (by norm_num [MultiPerceptron.passFailures, passListAux, passCount,
        MultiPerceptron.trainStep, MultiPerceptron.train, MultiPerceptron.setInput_,
        MultiPerceptron.getScore_, maxScoreLoop, dot, mkMultiPerceptron,
        List.replicate, Int.toNat])).1
  rw [h]
  norm_num [traceOf]

/-- Claim C4 (amended to `maxIterations ≥ 0`; for negative budgets the source
returns `true` without training, see the counterexample): `trainSet` runs
full-batch passes with the per-pass failure counts `cs`, executes at most
`maxIterations` passes, stops exactly on a zero-failure pass or on budget
exhaustion (every non-final pass has a nonzero count), and returns `true`
exactly when a zero-failure pass happened strictly before the budget was
exhausted. -/
theorem trainSet_budget_return_semantics
    (pB : BinaryPerceptron) (insB : List Vec) (expsB : List Bool)
    (pM : MultiPerceptron) (insM : List Vec) (expsM : List ℕ)
    (m : ℤ) (csB : List ℕ) (pB' : BinaryPerceptron)
    (csM : List ℕ) (pM' : MultiPerceptron)
    (hm : 0 ≤ m)
    (hlB : insB.length = expsB.length) (hlM : insM.length = expsM.length)
    (hpB : pB.passFailures insB expsB m = .ok (csB, pB'))
    (hpM : pM.passFailures insM expsM m = .ok (csM, pM')) :
    (BinaryPerceptron.trainSet pB insB expsB m true =
        .ok (decide ((csB.length : ℤ) ≠ m), pB', traceOf insB.length 0 csB) ∧
      (csB.length : ℤ) ≤ m ∧
      ((csB.length : ℤ) = m ∨ csB.getLast? = some 0) ∧
      (∀ k, k + 1 < csB.length → csB.getD k 0 ≠ 0) ∧
      (decide ((csB.length : ℤ) ≠ m) = true ↔
        ((csB.length : ℤ) < m ∧ csB.getLast? = some 0))) ∧
    (MultiPerceptron.trainSet pM insM expsM m true =
        .ok (decide ((csM.length : ℤ) ≠ m), pM', traceOf insM.length 0 csM) ∧
      (csM.length : ℤ) ≤ m ∧
      ((csM.length : ℤ) = m ∨ csM.getLast? = some 0) ∧
      (∀ k, k + 1 < csM.length → csM.getD k 0 ≠ 0) ∧
      (decide ((csM.length : ℤ) ≠ m) = true ↔
        ((csM.length : ℤ) < m ∧ csM.getLast? = some 0))) := by
  have hmn : ((m.toNat : ℕ) : ℤ) = m := Int.toNat_of_nonneg hm
  constructor
  · obtain ⟨sp1, sp2, sp3, sp4, sp5⟩ := passListAux_spec BinaryPerceptron.trainStep
      (insB.zip expsB) m.toNat pB (-1) csB pB' hpB
    have hle : (csB.length : ℤ) ≤ m := by omega
    have hstop : (csB.length : ℤ) = m ∨ csB.getLast? = some 0 := by
      by_cases hlen : (csB.length : ℤ) = m
      · exact Or.inl hlen
      · have hlt : csB.length < m.toNat := by omega
        rcases sp4 hlt with hnil | hlast
        · rcases sp3 hnil with hn0 | hf0
          · norm_num at hn0
          · omega
        · exact Or.inr hlast
    refine ⟨trainSetBP_eq_of_passFailures pB insB expsB m csB pB' hlB hpB,
      hle, hstop, sp5, ?_⟩
    constructor
    · intro hne
      have hne' : (csB.length : ℤ) ≠ m := of_decide_eq_true hne
      have hlt : (csB.length : ℤ) < m := by omega
      rcases hstop with h | h
      · omega
      · exact ⟨hlt, h⟩
    · intro ⟨hlt, _⟩
      exact decide_eq_true (by omega)
  · obtain ⟨sp1, sp2, sp3, sp4, sp5⟩ := passListAux_spec MultiPerceptron.trainStep
      (insM.zip expsM) m.toNat pM (-1) csM pM' hpM
    have hle : (csM.length : ℤ) ≤ m := by omega
    have hstop : (csM.length : ℤ) = m ∨ csM.getLast? = some 0 := by
      by_cases hlen : (csM.length : ℤ) = m
      · exact Or.inl hlen
      · have hlt : csM.length < m.toNat := by omega
        rcases sp4 hlt with hnil | hlast
        · rcases sp3 hnil with hn0 | hf0
          · norm_num at hn0
          · omega
        · exact Or.inr hlast
    refine ⟨trainSetMP_eq_of_passFailures pM insM expsM m csM pM' hlM hpM,
      hle, hstop, sp5, ?_⟩
    constructor
    · intro hne
      have hne' : (csM.length : ℤ) ≠ m := of_decide_eq_true hne
      have hlt : (csM.length : ℤ) < m := by omega
      rcases hstop with h | h
      · omega
      · exact ⟨hlt, h⟩
    · intro ⟨hlt, _⟩
      exact decide_eq_true (by omega)

/-- Witness for C4 (amended) on a non-separable one-dimensional set: with a
budget of 2 passes each pass fails both examples, the budget is exhausted,
and `trainSet` returns `false`. -/
theorem trainSet_budget_return_semantics_witness :
    BinaryPerceptron.trainSet (mkBinaryPerceptron 1 1 0) [[1], [1]] [true, false] 2 true =
      .ok (false, ⟨1, 0, [1, 1], [0, 0]⟩, [(2, 2, 0), (2, 2, 1)]) := by
  have h := ((trainSet_budget_return_semantics (mkBinaryPerceptron 1 1 0) [[1], [1]]
      [true, false] (mkMultiPerceptron 1 2 1) [[1]] [0] 2
      [2, 2] ⟨1, 0, [1, 1], [0, 0]⟩ [0] ⟨1, [1, 1], [[0, 0], [0, 0]]⟩
      (by norm_num) rfl rfl
      (by norm_num [BinaryPerceptron.passFailures, passListAux, passCount,
        BinaryPerceptron.trainStep, BinaryPerceptron.train, BinaryPerceptron.setInput_,
        BinaryPerceptron.getScore_, BinaryPerceptron.updateWeights_, dot,
        mkBinaryPerceptron, List.replicate, Int.toNat])
      (by norm_num [MultiPerceptron.passFailures, passListAux, passCount,
        MultiPerceptron.trainStep, MultiPerceptron.train, MultiPerceptron.setInput_,
        MultiPerceptron.getScore_, maxScoreLoop, dot, mkMultiPerceptron,
        List.replicate, Int.toNat])).1).1
  rw [h]
  norm_num [traceOf]

/-- Claim C1 (amended): within one pass, the canonical variant's
`allPassed = allPassed && train(...)` short-circuits — after the first
failing example the remaining examples of the pass are not trained at all
(first conjunct: from a false accumulator the pass leaves the state
untouched).  Starting a pass from the same state on well-dimensioned
examples, the canonical pass reports all-passed exactly when the threshold
pass counts zero failures, and in that case both end the pass in the same
state; on a failing pass the two variants may apply different weight
updates, and over several passes the two `trainSet`s can end with different
weights (see the counterexample). -/
theorem canonical_pass_short_circuit_equiv
    (p : BinaryPerceptron) (pairs : List (Vec × Bool))
    (hdim : ∀ q ∈ pairs, ((q.1 : Vec).length : ℤ) = (p.inputs.length : ℤ) - 1) :
    passAll BinaryPerceptron.trainStep p pairs false = .ok (false, p) ∧
    ((∃ p', passAll BinaryPerceptron.trainStep p pairs true = .ok (true, p') ∧
        passCount BinaryPerceptron.trainStep p pairs = .ok (0, p')) ∨
      (∃ p1 p2 n, passAll BinaryPerceptron.trainStep p pairs true = .ok (false, p1) ∧
        passCount BinaryPerceptron.trainStep p pairs = .ok (n, p2) ∧ n ≠ 0)) := by
  refine ⟨passAll_skip BinaryPerceptron.trainStep pairs p, ?_⟩
  induction pairs generalizing p with
  | nil => exact Or.inl ⟨p, rfl, rfl⟩
  | cons a rest ih =>
    have hd := hdim a (by simp)
    obtain ⟨r, p', hstep, hlen⟩ := train_ok_of_dim p a.1 a.2 hd
    have hstep' : BinaryPerceptron.trainStep p a = .ok (r, p') := hstep
    have hdrest : ∀ q ∈ rest, ((q.1 : Vec).length : ℤ) = (p'.inputs.length : ℤ) - 1 :=
      fun q hq => by rw [hlen]; exact hdim q (List.mem_cons_of_mem a hq)
    cases r with
    | true =>
      rcases ih p' hdrest with ⟨p'', h1, h2⟩ | ⟨p1, p2, n, h1, h2, hn⟩
      · exact Or.inl ⟨p'', by simp [passAll, hstep', h1], by simp [passCount, hstep', h2]⟩
      · exact Or.inr ⟨p1, p2, n, by simp [passAll, hstep', h1],
          by simp [passCount, hstep', h2], hn⟩
    | false =>
      obtain ⟨n, p2, hrest, _⟩ := passCount_ok_of_dims rest p' hdrest
      refine Or.inr ⟨p', p2, n + 1,
        by simp [passAll, hstep', passAll_skip BinaryPerceptron.trainStep rest p'],
        by simp [passCount, hstep', hrest], by omega⟩

/-- Witness for C1 (amended): concrete one-example pass from a fresh
perceptron — the skipping pass leaves the state untouched. -/
theorem canonical_pass_short_circuit_equiv_witness :
    passAll BinaryPerceptron.trainStep (mkBinaryPerceptron 1 1 0) [([1], true)] false =
      .ok (false, mkBinaryPerceptron 1 1 0) :=
  (canonical_pass_short_circuit_equiv (mkBinaryPerceptron 1 1 0) [([1], true)]
    (by intro q hq
        simp only [List.mem_singleton] at hq
        subst hq
        norm_num [mkBinaryPerceptron, List.replicate])).1

/-- With a bias slot holding 1.0 and a correctly sized input, `train` reduces
to the decision between the derived expected value and predicted value on
the buffered input `1 :: input`. -/
lemma train_eq_of_wf (p : BinaryPerceptron) (input : Vec) (expected : Bool)
    (hhead : p.inputs.take 1 = [1])
    (hdim : input.length + 1 = p.inputs.length) :
    p.train input expected =
      if expectedValueOf expected = predictedValue p input
      then .ok (true, { p with inputs := (1 : ℚ) :: input })
      else .ok (false,
        { p with inputs := (1 : ℚ) :: input, inputWeights := trainedWeights p input expected }) := by
  have hchk : ¬ ((input.length : ℤ) ≠ (p.inputs.length : ℤ) - 1) := by omega
  have hb : p.setInput_ input = { p with inputs := (1 : ℚ) :: input } := by
    unfold BinaryPerceptron.setInput_
    rw [hhead]
    rfl
  unfold BinaryPerceptron.train
  rw [if_neg hchk]
  dsimp only
  rw [hb]
  rfl

/-- Claim C5: for a well-formed binary perceptron and an input of the
configured dimension, `train` scores the buffered input `1 :: input`
(bias slot 1.0 at index 0), derives `predicted ∈ {0,1}` from
`score > threshold` and `expectedValue ∈ {0,1}` from the label; on a match
it returns `true` with the weights untouched, otherwise it returns `false`,
the error factor is `+1` or `-1`, and every weight index `i` — the bias
weight at `i = 0` against the constant 1.0 included — becomes
`weight[i] + learningRate * (expectedValue - predicted) * bufferedInput[i]`. -/
theorem binary_train_update_rule
    (p : BinaryPerceptron) (input : Vec) (expected : Bool)
    (hlen : p.inputs.length = p.inputWeights.length)
    (hhead : p.inputs.take 1 = [1])
    (hdim : input.length + 1 = p.inputs.length) :
    (expectedValueOf expected = predictedValue p input →
      p.train input expected = .ok (true, { p with inputs := (1 : ℚ) :: input })) ∧
    (expectedValueOf expected ≠ predictedValue p input →
      (expectedValueOf expected - predictedValue p input = 1 ∨
        expectedValueOf expected - predictedValue p input = -1) ∧
      p.train input expected = .ok (false,
        { p with inputs := (1 : ℚ) :: input, inputWeights := trainedWeights p input expected }) ∧
      (∀ i, i < p.inputWeights.length →
        (trainedWeights p input expected).getD i 0 =
          p.inputWeights.getD i 0 + p.learningRate *
            (expectedValueOf expected - predictedValue p input) *
            (((1 : ℚ) :: input).getD i 0))) := by
  have heq := train_eq_of_wf p input expected hhead hdim
  constructor
  · intro hmatch
    rw [heq, if_pos hmatch]
  · intro hne
    refine ⟨?_, by rw [heq, if_neg hne], ?_⟩
    · unfold expectedValueOf predictedValue at hne ⊢
      by_cases hexp : expected <;>
        by_cases hsc : dot p.inputWeights ((1 : ℚ) :: input) > p.threshold <;>
          simp [hexp, hsc] at hne ⊢
    · intro i hi
      have hi2 : i < ((1 : ℚ) :: input).length := by
        simp only [List.length_cons]
        omega
      exact getD_zipWith _ p.inputWeights ((1 : ℚ) :: input) i hi hi2

/-- Witness for C5 on a failing example: fresh perceptron, input `[2]`,
label `true`; the error factor is `+1` and both the bias weight and the
feature weight move by `learningRate * bufferedInput[i]`. -/
theorem binary_train_update_rule_witness :
    (mkBinaryPerceptron 1 1 0).train [2] true = .ok (false, ⟨1, 0, [1, 2], [1, 2]⟩) := by
  have h := ((binary_train_update_rule (mkBinaryPerceptron 1 1 0) [2] true
      (by norm_num [mkBinaryPerceptron, List.replicate])
      (by norm_num [mkBinaryPerceptron, List.replicate])
      (by norm_num [mkBinaryPerceptron, List.replicate])).2
    (by norm_num [expectedValueOf, predictedValue, dot, mkBinaryPerceptron,
      List.replicate])).2.1
  rw [h]
  norm_num [trainedWeights, expectedValueOf, predictedValue, dot, mkBinaryPerceptron,
    List.replicate]

/-- Claim C7: `MultiPerceptron.classify` on an input of the configured
dimension returns the smallest class index attaining the maximum score
(strict `>` against the running maximum, ascending scan, so later ties never
overwrite); in particular whenever all class scores are equal — as for a
freshly constructed instance, whose weights are all zero — it returns
class 0. -/
theorem multi_classify_first_argmax
    (p : MultiPerceptron) (input : Vec) (C : ℕ)
    (hC : p.inputWeights.length = C) (hC1 : 1 ≤ C)
    (hdim : input.length + 1 = p.inputs.length) :
    ∃ c p1, p.classify input = .ok (c, p1) ∧ c < C ∧
      (∀ j, j < C → scoreAt p input j ≤ scoreAt p input c) ∧
      (∀ j, j < c → scoreAt p input j < scoreAt p input c) ∧
      ((∀ j, j < C → scoreAt p input j = scoreAt p input 0) → c = 0) := by
  have hchk : ¬ ((input.length : ℤ) ≠ (p.inputs.length : ℤ) - 1) := by omega
  have hfun : (p.setInput_ input).getScore_ = scoreAt p input := by
    funext j
    rfl
  have hlen : (p.setInput_ input).inputWeights.length = C := hC
  have hcls : p.classify input =
      .ok ((maxScoreLoop (scoreAt p input) (C - 1)).2, p.setInput_ input) := by
    unfold MultiPerceptron.classify
    rw [if_neg hchk]
    dsimp only
    rw [hfun, hlen]
  obtain ⟨s1, s2, s3, s4⟩ := maxScoreLoop_spec (scoreAt p input) (C - 1)
  refine ⟨(maxScoreLoop (scoreAt p input) (C - 1)).2, p.setInput_ input, hcls,
    by omega, ?_, ?_, ?_⟩
  · intro j hj
    have h := s3 j (by omega)
    rwa [s2] at h
  · intro j hj
    have h := s4 j hj
    rwa [s2] at h
  · intro hall
    by_contra hc0
    have h0c : 0 < (maxScoreLoop (scoreAt p input) (C - 1)).2 := Nat.pos_of_ne_zero hc0
    have h1 := s4 0 h0c
    rw [s2] at h1
    have h2 := hall (maxScoreLoop (scoreAt p input) (C - 1)).2 (by omega)
    rw [h2] at h1
    exact lt_irrefl _ h1

/-- Witness for C7: a fresh 3-class perceptron classifies `[7]` as class 0
(all scores are zero, first index wins). -/
theorem multi_classify_first_argmax_witness :
    Except.map Prod.fst ((mkMultiPerceptron 1 3 1).classify [7]) = .ok 0 := by
  obtain ⟨c, p1, hcls, hlt, hmax, hmin, htie⟩ := multi_classify_first_argmax
    (mkMultiPerceptron 1 3 1) [7] 3
    (by norm_num [mkMultiPerceptron, List.replicate])
    (by norm_num)
    (by norm_num [mkMultiPerceptron, List.replicate])
  have hc0 : c = 0 := htie (by
    intro j hj
    interval_cases j <;>
      norm_num [scoreAt, dot, mkMultiPerceptron, List.replicate])
  rw [hcls, hc0]
  rfl

/-- Claim C8: when `MultiPerceptron.train` misclassifies (the in-range
expected class differs from the predicted class), it returns `false` and
touches exactly two weight rows: every component `i` of the expected class's
row gains `learningRate * bufferedInput[i]`, every component `i` of the
predicted class's row loses `learningRate * bufferedInput[i]` (buffered
input `1 :: input`, so the bias component moves by `learningRate * 1.0`),
and every other class's row is returned exactly unchanged. -/
theorem multi_train_update_locality
    (p : MultiPerceptron) (input : Vec) (expected : ℕ) (C : ℕ)
    (hC : p.inputWeights.length = C)
    (hrows : ∀ row ∈ p.inputWeights, row.length = p.inputs.length)
    (hhead : p.inputs.take 1 = [1])
    (hdim : input.length + 1 = p.inputs.length)
    (he : expected < C)
    (hne : expected ≠ predictedClass p input) :
    ∃ p', p.train input expected = .ok (false, p') ∧
      predictedClass p input < C ∧
      (∀ i, i < (rowAt p expected).length →
        (rowAt p' expected).getD i 0 =
          (rowAt p expected).getD i 0 + p.learningRate * (((1 : ℚ) :: input).getD i 0)) ∧
      (∀ i, i < (rowAt p (predictedClass p input)).length →
        (rowAt p' (predictedClass p input)).getD i 0 =
          (rowAt p (predictedClass p input)).getD i 0 -
            p.learningRate * (((1 : ℚ) :: input).getD i 0)) ∧
      (∀ c, c ≠ expected → c ≠ predictedClass p input → rowAt p' c = rowAt p c) := by
  have hchk : ¬ ((input.length : ℤ) ≠ (p.inputs.length : ℤ) - 1) := by omega
  have hpredlt : predictedClass p input < C := by
    have h := (maxScoreLoop_spec (scoreAt p input) (p.inputWeights.length - 1)).1
    unfold predictedClass
    omega
  have hqin : (p.setInput_ input).inputs = (1 : ℚ) :: input := by
    show p.inputs.take 1 ++ input = _
    rw [hhead]
    rfl
  have hpredrfl : (maxScoreLoop (p.setInput_ input).getScore_
      ((p.setInput_ input).inputWeights.length - 1)).2 = predictedClass p input := rfl
  refine ⟨((p.setInput_ input).encourageWeights_ expected).punishWeights_
    (predictedClass p input), ?_, hpredlt, ?_, ?_, ?_⟩
  · unfold MultiPerceptron.train
    rw [if_neg hchk]
    dsimp only
    rw [hpredrfl, if_neg hne]
  all_goals {
    have hEw : ((p.setInput_ input).encourageWeights_ expected).inputWeights =
        p.inputWeights.set expected
          (List.zipWith (fun w x => w + p.learningRate * x)
            (rowAt p expected) ((1 : ℚ) :: input)) := by
      unfold MultiPerceptron.encourageWeights_
      dsimp only
      rw [hqin]
      rfl
    have hEin : ((p.setInput_ input).encourageWeights_ expected).inputs =
        (1 : ℚ) :: input := hqin
    have hEpred : ((p.setInput_ input).encourageWeights_ expected).inputWeights.getD
        (predictedClass p input) [] = rowAt p (predictedClass p input) := by
      rw [hEw]
      exact getD_set_ne [] p.inputWeights expected (predictedClass p input) _ hne
    have hPw : (((p.setInput_ input).encourageWeights_ expected).punishWeights_
        (predictedClass p input)).inputWeights =
        (p.inputWeights.set expected
          (List.zipWith (fun w x => w + p.learningRate * x)
            (rowAt p expected) ((1 : ℚ) :: input))).set (predictedClass p input)
          (List.zipWith (fun w x => w - p.learningRate * x)
            (rowAt p (predictedClass p input)) ((1 : ℚ) :: input)) := by
      unfold MultiPerceptron.punishWeights_
      dsimp only
      rw [hEpred, hEin, hEw]
      rfl
    have hrowlen : ∀ c, c < C → (rowAt p c).length = p.inputs.length := by
      intro c hc
      have hc' : c < p.inputWeights.length := by omega
      have : rowAt p c = p.inputWeights[c] := List.getD_eq_getElem p.inputWeights [] hc'
      rw [this]
      exact hrows _ (List.getElem_mem hc')
    first
    | -- expected row
      (intro i hi
       have hib : i < ((1 : ℚ) :: input).length := by
         have := hrowlen expected he
         simp only [List.length_cons]
         omega
       show ((((p.setInput_ input).encourageWeights_ expected).punishWeights_
         (predictedClass p input)).inputWeights.getD expected []).getD i 0 = _
       rw [hPw, getD_set_ne [] _ (predictedClass p input) expected _ (Ne.symm hne),
         getD_set_eq [] p.inputWeights expected _ (by omega),
         getD_zipWith _ (rowAt p expected) ((1 : ℚ) :: input) i hi hib])
    | -- predicted row
      (intro i hi
       have hib : i < ((1 : ℚ) :: input).length := by
         have := hrowlen (predictedClass p input) hpredlt
         simp only [List.length_cons]
         omega
       have hsetlen : (p.inputWeights.set expected
           (List.zipWith (fun w x => w + p.learningRate * x)
             (rowAt p expected) ((1 : ℚ) :: input))).length = C := by
         rw [List.length_set]
         exact hC
       show ((((p.setInput_ input).encourageWeights_ expected).punishWeights_
         (predictedClass p input)).inputWeights.getD (predictedClass p input) []).getD i 0 = _
       rw [hPw, getD_set_eq [] _ (predictedClass p input) _ (by omega),
         getD_zipWith _ (rowAt p (predictedClass p input)) ((1 : ℚ) :: input) i hi hib])
    | -- untouched rows
      (intro c hce hcp
       show (((p.setInput_ input).encourageWeights_ expected).punishWeights_
         (predictedClass p input)).inputWeights.getD c [] = rowAt p c
       rw [hPw, getD_set_ne [] _ (predictedClass p input) c _ (Ne.symm hcp),
         getD_set_ne [] p.inputWeights expected c _ (Ne.symm hce)]
       rfl)
  }

/-- Witness for C8: fresh 2-class perceptron, input `[1]`, expected class 1,
predicted class 0 — the call fails and returns a state. -/
theorem multi_train_update_locality_witness :
    Except.map Prod.fst ((mkMultiPerceptron 1 2 1).train [1] 1) = .ok false := by
  obtain ⟨p', htr, _, _, _, _⟩ := multi_train_update_locality
    (mkMultiPerceptron 1 2 1) [1] 1 2
    (by norm_num [mkMultiPerceptron, List.replicate])
    (by
      intro row hrow
      have hr : row = [0, 0] := by
        simpa [mkMultiPerceptron, List.replicate] using hrow
      simp [hr, mkMultiPerceptron, List.replicate])
    (by norm_num [mkMultiPerceptron, List.replicate])
    (by norm_num [mkMultiPerceptron, List.replicate])
    (by norm_num)
    (by norm_num [predictedClass, maxScoreLoop, scoreAt, dot, mkMultiPerceptron,
      List.replicate])
  rw [htr]
  rfl
